import Mathlib

/-!
Verification development for the utility layer of an image-generation service
(`core/functions.py`): a cheap latent-to-RGB preview decoder
(`cheap_approximation`), a per-step progress callback (`pytorch_callback`),
an image-metadata reader (`image_meta_from_file`) and an input preprocessor
(`preprocess_image`).

The embedding works over exact rationals.  Where the Python code computes with
IEEE-754 double precision (the progress percentage `int((step/total)*100)` and
`float(str)` parsing), we model the double rounding exactly: `flFrac` maps a
fraction to the value of the nearest double (round to nearest, ties to even),
with unbounded exponent range, which agrees with binary64 wherever no overflow
or underflow occurs.
-/

namespace VoltaML

/-! ### Binary logarithm (fuel-based, kernel-reducible) -/

/-- Fuel-based floor of the binary logarithm; `log2fuel f n` equals
`Nat.log2 n` whenever `n ≤ f`.  Structural recursion on the fuel keeps it
reducible by `decide`. -/
def log2fuel : ℕ → ℕ → ℕ
  | 0, _ => 0
  | fuel + 1, n => if 2 ≤ n then log2fuel fuel (n / 2) + 1 else 0

/-- Floor of the binary logarithm of a positive natural number. -/
def mylog2 (n : ℕ) : ℕ := log2fuel n n

/-! ### Round-to-nearest-even

The executable layer works on numerator/denominator pairs of naturals, so
every concrete computation reduces inside the kernel; the rational-valued
specification function `rne` is used by the lemmas relating the two. -/

/-- Round a rational to the nearest integer, ties to even (specification
level). -/
def rne (r : ℚ) : ℤ :=
  if r - ⌊r⌋ < 1 / 2 then ⌊r⌋
  else if 1 / 2 < r - ⌊r⌋ then ⌊r⌋ + 1
  else if 2 ∣ ⌊r⌋ then ⌊r⌋ else ⌊r⌋ + 1

/-- Round `n / d` (for `0 < d`) to the nearest natural number, ties to even:
the executable counterpart of `rne`. -/
def rneN (n d : ℕ) : ℕ :=
  if 2 * (n % d) < d then n / d
  else if d < 2 * (n % d) then n / d + 1
  else if 2 ∣ n / d then n / d else n / d + 1

/-- `a / b < 2 ^ e`, phrased over the integers so that it reduces. -/
def ltPow2 (a b : ℕ) : ℤ → Prop
  | .ofNat n => a < 2 ^ n * b
  | .negSucc n => a * 2 ^ (n + 1) < b

instance (a b : ℕ) (e : ℤ) : Decidable (ltPow2 a b e) :=
  match e with
  | .ofNat n => inferInstanceAs (Decidable (a < 2 ^ n * b))
  | .negSucc n => inferInstanceAs (Decidable (a * 2 ^ (n + 1) < b))

/-- The binade exponent of `a / b` (for `a, b ≥ 1`): the unique `e` with
`2 ^ e ≤ a / b < 2 ^ (e + 1)`. -/
def qexpN (a b : ℕ) : ℤ :=
  if ltPow2 a b ((mylog2 a : ℤ) - (mylog2 b : ℤ)) then
    (mylog2 a : ℤ) - (mylog2 b : ℤ) - 1
  else (mylog2 a : ℤ) - (mylog2 b : ℤ)

/-- The double mantissa of `a / b`: the value scaled into `[2^52, 2^53)` and
rounded to the nearest integer, ties to even. -/
def mantissaN (a b : ℕ) : ℕ :=
  if 0 ≤ 52 - qexpN a b then rneN (a * 2 ^ ((52 : ℤ) - qexpN a b).toNat) b
  else rneN a (b * 2 ^ (qexpN a b - 52).toNat)

/-- The IEEE-754 double nearest to `a / b` (round to nearest, ties to even),
as an exact fraction `m * 2^(e-52)` over (numerator, denominator).  The
exponent range is unbounded, which agrees with binary64 wherever no overflow
or underflow occurs. -/
def flFrac (a b : ℕ) : ℕ × ℕ :=
  if 0 ≤ qexpN a b - 52 then (mantissaN a b * 2 ^ (qexpN a b - 52).toNat, 1)
  else (mantissaN a b, 2 ^ ((52 : ℤ) - qexpN a b).toNat)

/-- The rational value of a fraction pair. -/
def valFrac (p : ℕ × ℕ) : ℚ := (p.1 : ℚ) / (p.2 : ℚ)

/-- The double nearest to `n / d` (`0 < d`), as a rational. -/
def doubleOfFrac (n : ℤ) (d : ℕ) : ℚ :=
  mkRat (Int.sign n * ((flFrac n.natAbs d).1 : ℤ)) (flFrac n.natAbs d).2

/-- `int((step / total) * 100)` exactly as IEEE double arithmetic evaluates
it: round `step / total` to the nearest double, multiply by 100 and round
again, then truncate toward zero (for these positive values, floor — i.e.
natural division). -/
def progressOfN (step total : ℕ) : ℕ :=
  (flFrac ((flFrac step total).1 * 100) (flFrac step total).2).1 /
  (flFrac ((flFrac step total).1 * 100) (flFrac step total).2).2

/-! ### Latent preview decoder (`cheap_approximation`) -/

/-- The fixed 4×3 latent-to-RGB coefficient matrix (row = latent channel,
columns = R, G, B), exactly as in the source. -/
def coefs : Fin 4 → Fin 3 → ℚ :=
  ![![0.298, 0.207, 0.208],
    ![0.187, 0.286, 0.173],
    ![-0.158, 0.189, 0.264],
    ![-0.184, -0.271, -0.473]]

/-- `cheap_approximation`: contract a latent of shape (4, H, W) with `coefs`
over the channel axis (the einsum `"lxy,lr -> rxy"`), yielding an RGB tensor
of shape (3, H, W).  The float16 cast of the source is modelled by exact
rational arithmetic (the claims about it are stated up to floating-point
tolerance). -/
def cheap_approximation {H W : ℕ} (sample : Fin 4 → Fin H → Fin W → ℚ) :
    Fin 3 → Fin H → Fin W → ℚ :=
  fun r x y => ∑ l : Fin 4, sample l x y * coefs l r

/-! ### Base64 encoding and the preview-image serialization

`convert_image_to_base64` lives in `core.utils`, which is not part of the
supplied source; it is modelled from the spec below. -/

/-- The 64-character base64 alphabet. -/
def base64Table : List Char :=
  ['A', 'B', 'C', 'D', 'E', 'F', 'G', 'H', 'I', 'J', 'K', 'L', 'M',
   'N', 'O', 'P', 'Q', 'R', 'S', 'T', 'U', 'V', 'W', 'X', 'Y', 'Z',
   'a', 'b', 'c', 'd', 'e', 'f', 'g', 'h', 'i', 'j', 'k', 'l', 'm',
   'n', 'o', 'p', 'q', 'r', 's', 't', 'u', 'v', 'w', 'x', 'y', 'z',
   '0', '1', '2', '3', '4', '5', '6', '7', '8', '9', '+', '/']

/-- The base64 character for a sextet value. -/
def sextetChar (n : ℕ) : Char := base64Table.getD n 'A'

/-- Standard base64: three bytes become four characters, with `=` padding on
a one- or two-byte tail. -/
def base64Chars : List ℕ → List Char
  | [] => []
  | [a] => [sextetChar (a / 4), sextetChar (a % 4 * 16), '=', '=']
  | [a, b] => [sextetChar (a / 4), sextetChar (a % 4 * 16 + b / 16),
               sextetChar (b % 16 * 4), '=']
  | a :: b :: c :: rest =>
      sextetChar (a / 4) :: sextetChar (a % 4 * 16 + b / 16) ::
      sextetChar (b % 16 * 4 + c / 64) :: sextetChar (c % 64) ::
      base64Chars rest

/-- Base64-encode a byte list. -/
def base64Encode (bytes : List ℕ) : String := ⟨base64Chars bytes⟩

/-- The fixed 8-byte PNG container signature. -/
def pngSignature : List ℕ := [137, 80, 78, 71, 13, 10, 26, 10]

/-- `torch.clamp(x, min=lo, max=hi)`. -/
def clampQ (x lo hi : ℚ) : ℚ := max lo (min x hi)

/-- The preview-image bytes built by `pytorch_callback` before encoding:
decode with `cheap_approximation`, rescale `(x+1)/2`, clamp to `[0,1]`,
scale by 255, reorder channel-first to channel-last, truncate to `uint8`
(floor, as the values are nonnegative), and flatten in row, column, channel
order. -/
def previewBytes {H W : ℕ} (lat : Fin 4 → Fin H → Fin W → ℚ) : List ℕ :=
  (List.finRange H).flatMap fun y =>
    (List.finRange W).flatMap fun x =>
      (List.finRange 3).map fun c =>
        (⌊255 * clampQ ((cheap_approximation lat c y x + 1) / 2) 0 1⌋).toNat

/-- Modelled from the spec: `convert_image_to_base64` (from `core.utils`, not
in the supplied source) serializes the preview image to its container byte
stream — which begins with the fixed 8-byte PNG signature — and
base64-encodes that stream. -/
def convert_image_to_base64 (pixelBytes : List ℕ) : String :=
  base64Encode (pngSignature ++ pixelBytes)

/-! ### Shared state, progress messages and the step callback -/

/-- Modelled from the spec: the process-wide mutable state object
(`core.shared`, not in the supplied source): an interruption flag, the
preview cadence `image_decode_steps`, and the total step count
`current_steps` (both positive integers per the data model). -/
structure Shared where
  interrupt : Bool
  image_decode_steps : ℕ
  current_steps : ℕ
deriving DecidableEq

/-- The progress message published on the broadcast channel
(`api.websockets.data.Data`, shape taken from the call site and the spec). -/
structure Data where
  data_type : String
  progress : ℤ
  current_step : ℕ
  total_steps : ℕ
  image : String
deriving DecidableEq

/-- Outcome of one callback invocation: either the cancellation condition
`InferenceInterruptedError` was raised, or exactly one message was handed to
the broadcast channel. -/
inductive CallbackResult
  | interrupted
  | published (d : Data)
deriving DecidableEq

/-- The messages published during one invocation. -/
def messagesOf : CallbackResult → List Data
  | .interrupted => []
  | .published d => [d]

/-- The `"image"` field of the published message (empty when nothing was
published). -/
def imageOf : CallbackResult → String
  | .interrupted => ""
  | .published d => d.image

/-- The `"progress"` field of the published message (0 when nothing was
published). -/
def msgProgress : CallbackResult → ℤ
  | .interrupted => 0
  | .published d => d.progress

/-- The per-step data bundle handed to the callback: the latent batch
`data["x"]` and the zero-based step index `data["i"]`.  The source takes the
first batch element `data["x"][0]`, modelled below by `headI`; the sampling
loop always passes a nonempty batch (Python would raise `IndexError`
otherwise). -/
structure CallbackData (H W : ℕ) where
  x : List (Fin 4 → Fin H → Fin W → ℚ)
  i : ℕ

/-- `pytorch_callback`: the per-step progress callback.  If the interruption
flag is set it is cleared and the cancellation condition is raised (no
message is published).  Otherwise the 1-based step number is `i + 1`, a
preview is rendered exactly when that number is a multiple of the cadence,
the progress percentage is `int((step / current_steps) * 100)` computed in
double precision, and exactly one message is published.  (The source would
raise on a zero cadence or zero total; the data model fixes both positive,
and every theorem below assumes so.) -/
def pytorch_callback {H W : ℕ} (shared : Shared) (data : CallbackData H W) :
    Shared × CallbackResult :=
  if shared.interrupt then
    ({ shared with interrupt := false }, .interrupted)
  else
    let step := data.i + 1
    let send_image := step % shared.image_decode_steps = 0
    let image : String :=
      if send_image then convert_image_to_base64 (previewBytes data.x.headI)
      else ""
    (shared, .published
      { data_type := "txt2img"
        progress := (progressOfN step shared.current_steps : ℤ)
        current_step := step
        total_steps := shared.current_steps
        image := image })

/-! ### Image metadata reader (`image_meta_from_file`) -/

/-- The metadata record (`core.types.ImageMetadata`, fields taken from the
construction site and the spec's data model). -/
structure ImageMetadata where
  prompt : String
  negative_prompt : String
  height : ℤ
  width : ℤ
  seed : String
  guidance_scale : ℚ
  steps : ℤ
  model : String
deriving DecidableEq

/-- The Python exceptions relevant to the metadata reader: a failed dict
lookup (`KeyError`) and a failed numeric parse (`ValueError`). -/
inductive PyError
  | keyError
  | valueError
deriving DecidableEq

instance {ε α : Type} [DecidableEq ε] [DecidableEq α] :
    DecidableEq (Except ε α) := fun a b =>
  match a, b with
  | .ok x, .ok y =>
    if h : x = y then .isTrue (by rw [h])
    else .isFalse (fun hc => h (by cases hc; rfl))
  | .error e, .error f =>
    if h : e = f then .isTrue (by rw [h])
    else .isFalse (fun hc => h (by cases hc; rfl))
  | .ok _, .error _ => .isFalse (fun hc => by cases hc)
  | .error _, .ok _ => .isFalse (fun hc => by cases hc)

/-- The all-empty/zero fallback record built in the `except KeyError` arm. -/
def fallbackMetadata : ImageMetadata :=
  { prompt := "", negative_prompt := "", height := 0, width := 0,
    seed := "", guidance_scale := 0, steps := 0, model := "" }

/-- `text[k]` on the image's embedded text dictionary, modelled as an
association list: the value when present, `KeyError` otherwise. -/
def dictGet (t : List (String × String)) (k : String) : Except PyError String :=
  match t.lookup k with
  | some v => .ok v
  | none => .error .keyError

/-- The numeric value of a decimal digit. -/
def digitVal (c : Char) : Option ℕ :=
  if c.isDigit then some (c.toNat - 48) else none

/-- Accumulate decimal digits; fails on a non-digit. -/
def digitsAcc : List Char → ℕ → Option ℕ
  | [], acc => some acc
  | c :: cs, acc =>
    match digitVal c with
    | some d => digitsAcc cs (acc * 10 + d)
    | none => none

/-- Parse a nonempty all-digit string as a natural number. -/
def digitsToNat : List Char → Option ℕ
  | [] => none
  | cs => digitsAcc cs 0

/-- The value of a (possibly empty) digit list, junk digits ignored. -/
def natOfDigits (cs : List Char) : ℕ :=
  cs.foldl (fun a c => a * 10 + (c.toNat - 48)) 0

/-- Python `int(str)` on an optional sign followed by decimal digits.
(Whitespace, underscores and alternate bases accepted by Python are outside
the modelled subset; the values this system writes are plain decimals.) -/
def pyIntCore (cs : List Char) : Option ℤ :=
  match cs with
  | '-' :: rest => (digitsToNat rest).map fun n => -(n : ℤ)
  | '+' :: rest => (digitsToNat rest).map fun n => (n : ℤ)
  | _ => (digitsToNat cs).map fun n => (n : ℤ)

/-- Python `int(str)`: the parsed integer, or `ValueError`. -/
def pyInt (s : String) : Except PyError ℤ :=
  match pyIntCore s.data with
  | some z => .ok z
  | none => .error .valueError

/-- Parse an unsigned decimal (`digits`, `digits.digits`, `digits.` or
`.digits`) as an exact fraction `n / 10 ^ k`, returned as `(n, k)`. -/
def decimalCore (cs : List Char) : Option (ℕ × ℕ) :=
  match cs.dropWhile (· ≠ '.') with
  | [] => (digitsToNat cs).map fun n => (n, 0)
  | '.' :: fp =>
      let ip := cs.takeWhile (· ≠ '.')
      if (ip.all Char.isDigit ∧ fp.all Char.isDigit) ∧ (ip ≠ [] ∨ fp ≠ []) then
        some (natOfDigits ip * 10 ^ fp.length + natOfDigits fp, fp.length)
      else none
  | _ => none

/-- Optional sign in front of a decimal; the value is `±n / 10 ^ k`. -/
def pyFloatCore (cs : List Char) : Option (ℤ × ℕ) :=
  match cs with
  | '-' :: rest => (decimalCore rest).map fun p => (-(p.1 : ℤ), p.2)
  | '+' :: rest => (decimalCore rest).map fun p => ((p.1 : ℤ), p.2)
  | _ => (decimalCore cs).map fun p => ((p.1 : ℤ), p.2)

/-- Python `float(str)` on plain decimal notation: the decimal value rounded
to the nearest double, or `ValueError`.  (Exponent notation, `inf`/`nan`,
whitespace and underscores are outside the modelled subset; the values this
system writes are plain decimals.) -/
def pyFloat (s : String) : Except PyError ℚ :=
  match pyFloatCore s.data with
  | some p => .ok (doubleOfFrac p.1 (10 ^ p.2))
  | none => .error .valueError

/-- The `try` body: build the record field by field in the source's
evaluation order; the first `KeyError` or `ValueError` aborts the chain. -/
def tryMeta (t : List (String × String)) : Except PyError ImageMetadata :=
  (dictGet t "prompt").bind fun prompt =>
  (dictGet t "negative_prompt").bind fun negative_prompt =>
  (dictGet t "height").bind fun heightS =>
  (pyInt heightS).bind fun height =>
  (dictGet t "width").bind fun widthS =>
  (pyInt widthS).bind fun width =>
  (dictGet t "seed").bind fun seed =>
  (dictGet t "guidance_scale").bind fun gsS =>
  (pyFloat gsS).bind fun guidance_scale =>
  (dictGet t "steps").bind fun stepsS =>
  (pyInt stepsS).bind fun steps =>
  (dictGet t "model").bind fun model =>
  .ok { prompt := prompt, negative_prompt := negative_prompt,
        height := height, width := width, seed := seed,
        guidance_scale := guidance_scale, steps := steps, model := model }

/-- `image_meta_from_file`, with the file's embedded text fields abstracted
to their key/value dictionary: run the `try` body; `KeyError` is caught and
replaced by the fallback record; `ValueError` propagates to the caller. -/
def image_meta_from_file (t : List (String × String)) :
    Except PyError ImageMetadata :=
  match tryMeta t with
  | .ok m => .ok m
  | .error .keyError => .ok fallbackMetadata
  | .error .valueError => .error .valueError

/-! ### Model input preprocessor (`preprocess_image`) -/

/-- A decoded (PIL) image: dimensions plus an 8-bit sample function
`pixel y x c` (row, column, channel). -/
structure PImage where
  width : ℕ
  height : ℕ
  pixel : ℕ → ℕ → ℕ → ℕ

instance : Inhabited PImage := ⟨⟨0, 0, fun _ _ _ => 0⟩⟩

/-- A 4-dimensional tensor (batch, channel, height, width) of rationals. -/
structure Tensor4 where
  batch : ℕ
  channels : ℕ
  height : ℕ
  width : ℕ
  val : ℕ → ℕ → ℕ → ℕ → ℚ

/-- The contract the external resize primitive (PIL Lanczos resize of an
8-bit image) must satisfy: exact target dimensions, 8-bit output samples. -/
def ResizeSpec (resize : PImage → ℕ → ℕ → PImage) : Prop :=
  ∀ img w h, (resize img w h).width = w ∧ (resize img w h).height = h ∧
    ∀ y x c, (resize img w h).pixel y x c ≤ 255

/-- The image-list branch of `preprocess_image`: round the first image's
dimensions down to multiples of 32, resize every image to those dimensions,
stack along a new batch axis, scale `uint8` samples to `[0, 1]`, transpose
(b, h, w, c) to (b, c, h, w), and rescale to `[-1, 1]` via `2x - 1`. -/
def imagesToTensor (resize : PImage → ℕ → ℕ → PImage) (imgs : List PImage) :
    Tensor4 :=
  let w := imgs.headI.width - imgs.headI.width % 32
  let h := imgs.headI.height - imgs.headI.height % 32
  { batch := imgs.length
    channels := 3
    height := h
    width := w
    val := fun b c y x =>
      2 * ((resize (imgs.getD b default) w h).pixel y x c : ℚ) / 255 - 1 }

/-- `torch.cat` of two batched tensors along the batch axis. -/
def cat2 (t1 t2 : Tensor4) : Tensor4 :=
  { batch := t1.batch + t2.batch
    channels := t1.channels
    height := t1.height
    width := t1.width
    val := fun b c y x =>
      if b < t1.batch then t1.val b c y x else t2.val (b - t1.batch) c y x }

/-- `torch.cat` of a list of batched tensors along the batch axis. -/
def catTensors : List Tensor4 → Tensor4
  | [] => ⟨0, 0, 0, 0, fun _ _ _ _ => 0⟩
  | [t] => t
  | t :: rest => cat2 t (catTensors rest)

/-- The runtime type dispatch of `preprocess_image`, as a tagged union: a
canonical tensor, a single decoded image, a list of decoded images, or a
list of batched tensors. -/
inductive PreprocessInput
  | tensor (t : Tensor4)
  | image (img : PImage)
  | imageList (imgs : List PImage)
  | tensorList (ts : List Tensor4)

/-- `preprocess_image`, parametrized by the external resize primitive: a
canonical tensor passes through unchanged; a single image becomes a
one-element list; an image list goes through `imagesToTensor`; a tensor
list is concatenated along the batch axis. -/
def preprocess_image (resize : PImage → ℕ → ℕ → PImage) :
    PreprocessInput → Tensor4
  | .tensor t => t
  | .image img => imagesToTensor resize [img]
  | .imageList imgs => imagesToTensor resize imgs
  | .tensorList ts => catTensors ts

/-! ### Concrete fixtures used by witnesses and counterexamples -/

/-- A resize primitive satisfying `ResizeSpec`: constant mid-gray output of
the requested dimensions. -/
def resizeConst : PImage → ℕ → ℕ → PImage :=
  fun _ w h => ⟨w, h, fun _ _ _ => 100⟩

/-- Embedded text fields with all eight keys present but a height value that
fails integer parsing. -/
def badHeightText : List (String × String) :=
  [("prompt", "a cat"), ("negative_prompt", "blurry"), ("height", "abc"),
   ("width", "512"), ("seed", "42"), ("guidance_scale", "7.5"),
   ("steps", "30"), ("model", "sd-v1")]

/-- Embedded text fields with all eight keys present and parseable values. -/
def goodMetaText : List (String × String) :=
  [("prompt", "a cat"), ("negative_prompt", "blurry"), ("height", "512"),
   ("width", "512"), ("seed", "42"), ("guidance_scale", "7.5"),
   ("steps", "30"), ("model", "sd-v1")]

/-- Embedded text fields with all eight keys present but a steps value that
fails integer parsing. -/
def badStepsText : List (String × String) :=
  [("prompt", "a cat"), ("negative_prompt", "blurry"), ("height", "512"),
   ("width", "512"), ("seed", "42"), ("guidance_scale", "7.5"),
   ("steps", "thirty"), ("model", "sd-v1")]

/-- The eight expected metadata keys, in the source's evaluation order. -/
def metaKeys : List String :=
  ["prompt", "negative_prompt", "height", "width", "seed",
   "guidance_scale", "steps", "model"]

/-- Embedded text fields with the height key absent *and* an unparseable
steps value: the height `KeyError` fires first, so the fallback is taken. -/
def missingHeightText : List (String × String) :=
  [("prompt", "a cat"), ("negative_prompt", "blurry"), ("width", "512"),
   ("seed", "42"), ("guidance_scale", "7.5"), ("steps", "thirty"),
   ("model", "sd-v1")]

/-- The key is present in the embedded text fields. -/
def keyPresent (t : List (String × String)) (k : String) : Prop :=
  ∃ v, t.lookup k = some v

/-- The key is present and its value parses as a Python `int`. -/
def intFieldOk (t : List (String × String)) (k : String) : Prop :=
  ∃ v n, t.lookup k = some v ∧ pyInt v = Except.ok n

/-- The key is present and its value parses as a Python `float`. -/
def floatFieldOk (t : List (String × String)) (k : String) : Prop :=
  ∃ v q, t.lookup k = some v ∧ pyFloat v = Except.ok q

/-- The key is present but its value fails the `int` parse. -/
def intFieldBad (t : List (String × String)) (k : String) : Prop :=
  ∃ v, t.lookup k = some v ∧ pyInt v = Except.error PyError.valueError

/-- The key is present but its value fails the `float` parse. -/
def floatFieldBad (t : List (String × String)) (k : String) : Prop :=
  ∃ v, t.lookup k = some v ∧ pyFloat v = Except.error PyError.valueError

/-- The first failure in the source's evaluation order (prompt,
negative_prompt, height+parse, width+parse, seed, guidance_scale+parse,
steps+parse, model) is a missing key: exactly the condition under which the
`except KeyError` arm substitutes the fallback record. -/
def fallbackCondition (t : List (String × String)) : Prop :=
  t.lookup "prompt" = none
  ∨ (keyPresent t "prompt" ∧ t.lookup "negative_prompt" = none)
  ∨ (keyPresent t "prompt" ∧ keyPresent t "negative_prompt" ∧
      t.lookup "height" = none)
  ∨ (keyPresent t "prompt" ∧ keyPresent t "negative_prompt" ∧
      intFieldOk t "height" ∧ t.lookup "width" = none)
  ∨ (keyPresent t "prompt" ∧ keyPresent t "negative_prompt" ∧
      intFieldOk t "height" ∧ intFieldOk t "width" ∧
      t.lookup "seed" = none)
  ∨ (keyPresent t "prompt" ∧ keyPresent t "negative_prompt" ∧
      intFieldOk t "height" ∧ intFieldOk t "width" ∧
      keyPresent t "seed" ∧ t.lookup "guidance_scale" = none)
  ∨ (keyPresent t "prompt" ∧ keyPresent t "negative_prompt" ∧
      intFieldOk t "height" ∧ intFieldOk t "width" ∧
      keyPresent t "seed" ∧ floatFieldOk t "guidance_scale" ∧
      t.lookup "steps" = none)
  ∨ (keyPresent t "prompt" ∧ keyPresent t "negative_prompt" ∧
      intFieldOk t "height" ∧ intFieldOk t "width" ∧
      keyPresent t "seed" ∧ floatFieldOk t "guidance_scale" ∧
      intFieldOk t "steps" ∧ t.lookup "model" = none)

/-- The first failure in the source's evaluation order is a numeric parse
failure: exactly the condition under which `ValueError` escapes past the
`except KeyError` handler. -/
def valueErrorCondition (t : List (String × String)) : Prop :=
  (keyPresent t "prompt" ∧ keyPresent t "negative_prompt" ∧
    intFieldBad t "height")
  ∨ (keyPresent t "prompt" ∧ keyPresent t "negative_prompt" ∧
      intFieldOk t "height" ∧ intFieldBad t "width")
  ∨ (keyPresent t "prompt" ∧ keyPresent t "negative_prompt" ∧
      intFieldOk t "height" ∧ intFieldOk t "width" ∧
      keyPresent t "seed" ∧ floatFieldBad t "guidance_scale")
  ∨ (keyPresent t "prompt" ∧ keyPresent t "negative_prompt" ∧
      intFieldOk t "height" ∧ intFieldOk t "width" ∧
      keyPresent t "seed" ∧ floatFieldOk t "guidance_scale" ∧
      intFieldBad t "steps")

/-! ## Lemmas about the double-rounding model -/

theorem log2fuel_spec : ∀ fuel n : ℕ, 1 ≤ n → n ≤ fuel →
    2 ^ log2fuel fuel n ≤ n ∧ n < 2 ^ (log2fuel fuel n + 1) := by
  intro fuel
  induction fuel with
  | zero => intro n h1 h2; omega
  | succ f ih =>
    intro n h1 h2
    by_cases h : 2 ≤ n
    · have hrec := ih (n / 2) (by omega) (by omega)
      simp only [log2fuel, if_pos h]
      constructor
      · have he : 2 ^ (log2fuel f (n / 2) + 1) = 2 * 2 ^ log2fuel f (n / 2) := by
          ring
        omega
      · have he : 2 ^ (log2fuel f (n / 2) + 1 + 1)
            = 2 * 2 ^ (log2fuel f (n / 2) + 1) := by ring
        omega
    · have hn : n = 1 := by omega
      subst hn
      norm_num [log2fuel, h]

theorem mylog2_spec (n : ℕ) (h : 1 ≤ n) :
    2 ^ mylog2 n ≤ n ∧ n < 2 ^ (mylog2 n + 1) :=
  log2fuel_spec n n h le_rfl

theorem ltPow2_iff (a b : ℕ) (e : ℤ) (hb : 0 < b) :
    ltPow2 a b e ↔ (a : ℚ) / (b : ℚ) < (2 : ℚ) ^ e := by
  have hbQ : (0 : ℚ) < (b : ℚ) := by exact_mod_cast hb
  cases e with
  | ofNat n =>
    simp only [ltPow2, Int.ofNat_eq_coe, zpow_natCast]
    rw [div_lt_iff₀ hbQ]
    constructor
    · intro h
      have : (a : ℚ) < ((2 ^ n * b : ℕ) : ℚ) := by exact_mod_cast h
      calc (a : ℚ) < ((2 ^ n * b : ℕ) : ℚ) := this
        _ = 2 ^ n * b := by push_cast; ring
    · intro h
      have : (a : ℚ) < ((2 ^ n * b : ℕ) : ℚ) := by
        calc (a : ℚ) < 2 ^ n * b := h
          _ = ((2 ^ n * b : ℕ) : ℚ) := by push_cast; ring
      exact_mod_cast this
  | negSucc n =>
    simp only [ltPow2, zpow_negSucc]
    rw [div_lt_iff₀ hbQ, inv_mul_eq_div, lt_div_iff₀ (by positivity : (0:ℚ) < 2 ^ (n + 1))]
    constructor
    · intro h
      have : ((a * 2 ^ (n + 1) : ℕ) : ℚ) < (b : ℚ) := by exact_mod_cast h
      calc (a : ℚ) * 2 ^ (n + 1) = ((a * 2 ^ (n + 1) : ℕ) : ℚ) := by push_cast; ring
        _ < b := this
    · intro h
      have : ((a * 2 ^ (n + 1) : ℕ) : ℚ) < (b : ℚ) := by
        calc ((a * 2 ^ (n + 1) : ℕ) : ℚ) = (a : ℚ) * 2 ^ (n + 1) := by push_cast; ring
          _ < b := h
      exact_mod_cast this

theorem qexpN_bracket (a b : ℕ) (ha : 1 ≤ a) (hb : 1 ≤ b) :
    (2 : ℚ) ^ qexpN a b ≤ (a : ℚ) / b ∧ (a : ℚ) / b < (2 : ℚ) ^ (qexpN a b + 1) := by
  obtain ⟨ha1, ha2⟩ := mylog2_spec a ha
  obtain ⟨hb1, hb2⟩ := mylog2_spec b hb
  have hbQ : (0 : ℚ) < (b : ℚ) := by exact_mod_cast hb
  have haQ1 : (2 : ℚ) ^ ((mylog2 a : ℤ)) ≤ (a : ℚ) := by
    rw [zpow_natCast]; exact_mod_cast ha1
  have haQ2 : (a : ℚ) < (2 : ℚ) ^ ((mylog2 a : ℤ) + 1) := by
    have : ((mylog2 a : ℤ) + 1) = ((mylog2 a + 1 : ℕ) : ℤ) := by push_cast; ring
    rw [this, zpow_natCast]; exact_mod_cast ha2
  have hbQ1 : (2 : ℚ) ^ ((mylog2 b : ℤ)) ≤ (b : ℚ) := by
    rw [zpow_natCast]; exact_mod_cast hb1
  have hbQ2 : (b : ℚ) < (2 : ℚ) ^ ((mylog2 b : ℤ) + 1) := by
    have : ((mylog2 b : ℤ) + 1) = ((mylog2 b + 1 : ℕ) : ℤ) := by push_cast; ring
    rw [this, zpow_natCast]; exact_mod_cast hb2
  have h2 : (0 : ℚ) < 2 := by norm_num
  have h2n : (2 : ℚ) ≠ 0 := by norm_num
  -- strict lower bound: 2 ^ (la - lb - 1) < a / b
  have key1 : (2 : ℚ) ^ ((mylog2 a : ℤ) - (mylog2 b : ℤ) - 1) < (a : ℚ) / b := by
    rw [lt_div_iff₀ hbQ]
    calc (2 : ℚ) ^ ((mylog2 a : ℤ) - (mylog2 b : ℤ) - 1) * b
        < (2 : ℚ) ^ ((mylog2 a : ℤ) - (mylog2 b : ℤ) - 1)
          * (2 : ℚ) ^ ((mylog2 b : ℤ) + 1) := by
          exact mul_lt_mul_of_pos_left hbQ2 (zpow_pos h2 _)
      _ = (2 : ℚ) ^ ((mylog2 a : ℤ)) := by
          rw [← zpow_add₀ h2n]; ring_nf
      _ ≤ (a : ℚ) := haQ1
  -- strict upper bound: a / b < 2 ^ (la - lb + 1)
  have key2 : (a : ℚ) / b < (2 : ℚ) ^ ((mylog2 a : ℤ) - (mylog2 b : ℤ) + 1) := by
    rw [div_lt_iff₀ hbQ]
    calc (a : ℚ) < (2 : ℚ) ^ ((mylog2 a : ℤ) + 1) := haQ2
      _ = (2 : ℚ) ^ ((mylog2 a : ℤ) - (mylog2 b : ℤ) + 1)
          * (2 : ℚ) ^ ((mylog2 b : ℤ)) := by
          rw [← zpow_add₀ h2n]; ring_nf
      _ ≤ (2 : ℚ) ^ ((mylog2 a : ℤ) - (mylog2 b : ℤ) + 1) * b := by
          exact mul_le_mul_of_nonneg_left hbQ1 (zpow_pos h2 _).le
  unfold qexpN
  by_cases hc : ltPow2 a b ((mylog2 a : ℤ) - (mylog2 b : ℤ))
  · rw [if_pos hc]
    have hlt := (ltPow2_iff a b _ hb).mp hc
    constructor
    · exact key1.le
    · have : (mylog2 a : ℤ) - (mylog2 b : ℤ) - 1 + 1
          = (mylog2 a : ℤ) - (mylog2 b : ℤ) := by ring
      rw [this]; exact hlt
  · rw [if_neg hc]
    have hge := (ltPow2_iff a b _ hb).not.mp hc
    push_neg at hge
    exact ⟨hge, key2⟩

theorem rne_floor_le (r : ℚ) : ⌊r⌋ ≤ rne r := by
  unfold rne; split_ifs <;> omega

theorem rne_le_floor_add_one (r : ℚ) : rne r ≤ ⌊r⌋ + 1 := by
  unfold rne; split_ifs <;> omega

theorem rne_mono {r1 r2 : ℚ} (h : r1 ≤ r2) : rne r1 ≤ rne r2 := by
  rcases lt_or_le ⌊r1⌋ ⌊r2⌋ with hlt | hle
  · have h1 := rne_le_floor_add_one r1
    have h2 := rne_floor_le r2
    omega
  · have heq : ⌊r1⌋ = ⌊r2⌋ := le_antisymm (Int.floor_le_floor h) hle
    unfold rne
    rw [heq]
    have hd : r1 - (⌊r2⌋ : ℚ) ≤ r2 - (⌊r2⌋ : ℚ) := by linarith
    split_ifs <;> first | omega | linarith

theorem rneN_eq_rne (n d : ℕ) (hd : 0 < d) :
    (rneN n d : ℤ) = rne ((n : ℚ) / (d : ℚ)) := by
  have hdQ : (0 : ℚ) < (d : ℚ) := by exact_mod_cast hd
  have hfl : ⌊(n : ℚ) / (d : ℚ)⌋ = ((n / d : ℕ) : ℤ) := by
    rw [show ((n : ℚ)) = (((n : ℤ)) : ℚ) by push_cast; ring,
      Rat.floor_intCast_div_natCast, Int.natCast_div]
  have hsplit : ((n : ℚ)) = (d : ℚ) * ((n / d : ℕ) : ℚ) + ((n % d : ℕ) : ℚ) := by
    exact_mod_cast (Nat.div_add_mod n d).symm
  have hfrac : (n : ℚ) / d - ((n / d : ℕ) : ℚ) = ((n % d : ℕ) : ℚ) / d := by
    rw [eq_div_iff hdQ.ne', sub_mul, div_mul_cancel₀ _ hdQ.ne']
    linarith
  have hc1 : ((n % d : ℕ) : ℚ) / d < 1 / 2 ↔ 2 * (n % d) < d := by
    rw [div_lt_div_iff₀ hdQ (by norm_num : (0 : ℚ) < 2), one_mul]
    have hcast : ((n % d : ℕ) : ℚ) * 2 < (d : ℚ) ↔ (n % d) * 2 < d := by
      exact_mod_cast Iff.rfl
    rw [hcast]; omega
  have hc2 : 1 / 2 < ((n % d : ℕ) : ℚ) / d ↔ d < 2 * (n % d) := by
    rw [div_lt_div_iff₀ (by norm_num : (0 : ℚ) < 2) hdQ, one_mul]
    have hcast : (d : ℚ) < ((n % d : ℕ) : ℚ) * 2 ↔ d < (n % d) * 2 := by
      exact_mod_cast Iff.rfl
    rw [hcast]; omega
  have hc3 : (2 : ℤ) ∣ ((n / d : ℕ) : ℤ) ↔ 2 ∣ n / d := by
    exact_mod_cast Iff.rfl
  unfold rne rneN
  simp only [hfl, Int.cast_natCast, hfrac, hc1, hc2, hc3]
  split_ifs <;> push_cast <;> omega

theorem mantissaN_eq_rne (a b : ℕ) (hb : 1 ≤ b) :
    (mantissaN a b : ℤ)
      = rne ((a : ℚ) / b * (2 : ℚ) ^ ((52 : ℤ) - qexpN a b)) := by
  have hbQ : (0 : ℚ) < (b : ℚ) := by exact_mod_cast hb
  unfold mantissaN
  by_cases hcase : 0 ≤ 52 - qexpN a b
  · rw [if_pos hcase, rneN_eq_rne _ _ hb]
    congr 1
    have hk : ((((52 : ℤ) - qexpN a b).toNat : ℕ) : ℤ) = (52 : ℤ) - qexpN a b :=
      Int.toNat_of_nonneg hcase
    push_cast
    rw [← zpow_natCast (2 : ℚ) (((52 : ℤ) - qexpN a b).toNat), hk]
    ring
  · have hk : (((qexpN a b - 52).toNat : ℕ) : ℤ) = qexpN a b - 52 :=
      Int.toNat_of_nonneg (by omega)
    have hp : (0 : ℚ) < (2 : ℚ) ^ (qexpN a b - 52) := zpow_pos (by norm_num) _
    rw [if_neg hcase, rneN_eq_rne _ _ (by positivity)]
    congr 1
    push_cast
    rw [← zpow_natCast (2 : ℚ) ((qexpN a b - 52).toNat), hk,
      show (52 : ℤ) - qexpN a b = -(qexpN a b - 52) by ring, zpow_neg,
      div_mul_eq_div_div, div_eq_mul_inv]

theorem scaledN_bounds (a b : ℕ) (ha : 1 ≤ a) (hb : 1 ≤ b) :
    (2 : ℚ) ^ (52 : ℤ) ≤ (a : ℚ) / b * (2 : ℚ) ^ ((52 : ℤ) - qexpN a b) ∧
    (a : ℚ) / b * (2 : ℚ) ^ ((52 : ℤ) - qexpN a b) < (2 : ℚ) ^ (53 : ℤ) := by
  obtain ⟨h1, h2⟩ := qexpN_bracket a b ha hb
  have hp : (0 : ℚ) < (2 : ℚ) ^ ((52 : ℤ) - qexpN a b) := zpow_pos (by norm_num) _
  have h2n : (2 : ℚ) ≠ 0 := by norm_num
  constructor
  · calc (2 : ℚ) ^ (52 : ℤ)
        = (2 : ℚ) ^ qexpN a b * (2 : ℚ) ^ ((52 : ℤ) - qexpN a b) := by
          rw [← zpow_add₀ h2n]; congr 1; ring
      _ ≤ (a : ℚ) / b * (2 : ℚ) ^ ((52 : ℤ) - qexpN a b) :=
          mul_le_mul_of_nonneg_right h1 hp.le
  · calc (a : ℚ) / b * (2 : ℚ) ^ ((52 : ℤ) - qexpN a b)
        < (2 : ℚ) ^ (qexpN a b + 1) * (2 : ℚ) ^ ((52 : ℤ) - qexpN a b) :=
          mul_lt_mul_of_pos_right h2 hp
      _ = (2 : ℚ) ^ (53 : ℤ) := by rw [← zpow_add₀ h2n]; congr 1; ring

theorem mantissaN_lb (a b : ℕ) (ha : 1 ≤ a) (hb : 1 ≤ b) :
    (2 : ℤ) ^ 52 ≤ (mantissaN a b : ℤ) := by
  rw [mantissaN_eq_rne a b hb]
  refine le_trans ?_ (rne_floor_le _)
  rw [Int.le_floor]
  refine le_trans ?_ (scaledN_bounds a b ha hb).1
  push_cast
  rw [show (52 : ℤ) = ((52 : ℕ) : ℤ) by norm_num, zpow_natCast]
  norm_num

theorem mantissaN_ub (a b : ℕ) (ha : 1 ≤ a) (hb : 1 ≤ b) :
    (mantissaN a b : ℤ) ≤ 2 ^ 53 := by
  rw [mantissaN_eq_rne a b hb]
  refine le_trans (rne_le_floor_add_one _) ?_
  have hlt : ⌊(a : ℚ) / b * (2 : ℚ) ^ ((52 : ℤ) - qexpN a b)⌋ < 2 ^ 53 := by
    rw [Int.floor_lt]
    refine lt_of_lt_of_le (scaledN_bounds a b ha hb).2 ?_
    push_cast
    rw [show (53 : ℤ) = ((53 : ℕ) : ℤ) by norm_num, zpow_natCast]
    norm_num
  omega

theorem flFrac_snd_pos (a b : ℕ) : 1 ≤ (flFrac a b).2 := by
  unfold flFrac
  split_ifs <;> simp only
  · exact le_rfl
  · exact Nat.one_le_two_pow

theorem flFrac_fst_pos (a b : ℕ) (ha : 1 ≤ a) (hb : 1 ≤ b) :
    1 ≤ (flFrac a b).1 := by
  have hm := mantissaN_lb a b ha hb
  have h52 : (2 : ℤ) ^ 52 = 4503599627370496 := by norm_num
  have hm1 : 1 ≤ mantissaN a b := by omega
  unfold flFrac
  split_ifs with h
  · simp only
    have h2p : 1 ≤ 2 ^ (qexpN a b - 52).toNat := Nat.one_le_two_pow
    exact Nat.one_le_iff_ne_zero.mpr (Nat.mul_ne_zero (by omega) (by omega))
  · simpa using hm1

theorem flFrac_val (a b : ℕ) :
    valFrac (flFrac a b)
      = (mantissaN a b : ℚ) * (2 : ℚ) ^ (qexpN a b - (52 : ℤ)) := by
  unfold flFrac valFrac
  by_cases hcase : 0 ≤ qexpN a b - 52
  · rw [if_pos hcase]
    simp only
    have hk : (((qexpN a b - 52).toNat : ℕ) : ℤ) = qexpN a b - 52 :=
      Int.toNat_of_nonneg hcase
    push_cast
    rw [div_one, ← zpow_natCast (2 : ℚ) ((qexpN a b - 52).toNat), hk]
  · rw [if_neg hcase]
    simp only
    have hk : ((((52 : ℤ) - qexpN a b).toNat : ℕ) : ℤ) = 52 - qexpN a b :=
      Int.toNat_of_nonneg (by omega)
    push_cast
    rw [← zpow_natCast (2 : ℚ) (((52 : ℤ) - qexpN a b).toNat), hk,
      show qexpN a b - (52 : ℤ) = -((52 : ℤ) - qexpN a b) by ring, zpow_neg,
      div_eq_mul_inv]

theorem flFrac_val_lb (a b : ℕ) (ha : 1 ≤ a) (hb : 1 ≤ b) :
    (2 : ℚ) ^ qexpN a b ≤ valFrac (flFrac a b) := by
  rw [flFrac_val]
  have hm := mantissaN_lb a b ha hb
  have hmQ : (2 : ℚ) ^ (52 : ℤ) ≤ (mantissaN a b : ℚ) := by
    rw [show (52 : ℤ) = ((52 : ℕ) : ℤ) by norm_num, zpow_natCast]
    exact_mod_cast hm
  have hp : (0 : ℚ) < (2 : ℚ) ^ (qexpN a b - (52 : ℤ)) := zpow_pos (by norm_num) _
  calc (2 : ℚ) ^ qexpN a b
      = (2 : ℚ) ^ (52 : ℤ) * (2 : ℚ) ^ (qexpN a b - (52 : ℤ)) := by
        rw [← zpow_add₀ (by norm_num : (2 : ℚ) ≠ 0)]; congr 1; ring
    _ ≤ (mantissaN a b : ℚ) * (2 : ℚ) ^ (qexpN a b - (52 : ℤ)) :=
        mul_le_mul_of_nonneg_right hmQ hp.le

theorem flFrac_val_ub (a b : ℕ) (ha : 1 ≤ a) (hb : 1 ≤ b) :
    valFrac (flFrac a b) ≤ (2 : ℚ) ^ (qexpN a b + 1) := by
  rw [flFrac_val]
  have hm := mantissaN_ub a b ha hb
  have hmQ : (mantissaN a b : ℚ) ≤ (2 : ℚ) ^ (53 : ℤ) := by
    rw [show (53 : ℤ) = ((53 : ℕ) : ℤ) by norm_num, zpow_natCast]
    exact_mod_cast hm
  have hp : (0 : ℚ) < (2 : ℚ) ^ (qexpN a b - (52 : ℤ)) := zpow_pos (by norm_num) _
  calc (mantissaN a b : ℚ) * (2 : ℚ) ^ (qexpN a b - (52 : ℤ))
      ≤ (2 : ℚ) ^ (53 : ℤ) * (2 : ℚ) ^ (qexpN a b - (52 : ℤ)) :=
        mul_le_mul_of_nonneg_right hmQ hp.le
    _ = (2 : ℚ) ^ (qexpN a b + 1) := by
        rw [← zpow_add₀ (by norm_num : (2 : ℚ) ≠ 0)]; congr 1; ring

theorem flFrac_val_pos (a b : ℕ) (ha : 1 ≤ a) (hb : 1 ≤ b) :
    0 < valFrac (flFrac a b) :=
  lt_of_lt_of_le (zpow_pos (by norm_num) _) (flFrac_val_lb a b ha hb)

theorem flFrac_mono (a1 b1 a2 b2 : ℕ) (ha1 : 1 ≤ a1) (hb1 : 1 ≤ b1)
    (ha2 : 1 ≤ a2) (hb2 : 1 ≤ b2) (h : (a1 : ℚ) / b1 ≤ (a2 : ℚ) / b2) :
    valFrac (flFrac a1 b1) ≤ valFrac (flFrac a2 b2) := by
  have he : qexpN a1 b1 ≤ qexpN a2 b2 := by
    have k1 := (qexpN_bracket a1 b1 ha1 hb1).1
    have k2 := (qexpN_bracket a2 b2 ha2 hb2).2
    have hlt : (2 : ℚ) ^ qexpN a1 b1 < (2 : ℚ) ^ (qexpN a2 b2 + 1) :=
      lt_of_le_of_lt (le_trans k1 h) k2
    have := (zpow_lt_zpow_iff_right₀ (by norm_num : (1 : ℚ) < 2)).mp hlt
    omega
  rcases eq_or_lt_of_le he with heq | hlt
  · have hm1 : ((mantissaN a1 b1 : ℕ) : ℚ)
        = ((rne ((a1 : ℚ) / b1 * (2 : ℚ) ^ ((52 : ℤ) - qexpN a1 b1)) : ℤ) : ℚ) := by
      exact_mod_cast mantissaN_eq_rne a1 b1 hb1
    have hm2 : ((mantissaN a2 b2 : ℕ) : ℚ)
        = ((rne ((a2 : ℚ) / b2 * (2 : ℚ) ^ ((52 : ℤ) - qexpN a2 b2)) : ℤ) : ℚ) := by
      exact_mod_cast mantissaN_eq_rne a2 b2 hb2
    rw [flFrac_val, flFrac_val, hm1, hm2, ← heq]
    have hs : (a1 : ℚ) / b1 * (2 : ℚ) ^ ((52 : ℤ) - qexpN a1 b1)
        ≤ (a2 : ℚ) / b2 * (2 : ℚ) ^ ((52 : ℤ) - qexpN a1 b1) :=
      mul_le_mul_of_nonneg_right h (zpow_pos (by norm_num) _).le
    have hr := rne_mono hs
    have hrQ : ((rne ((a1 : ℚ) / b1 * (2 : ℚ) ^ ((52 : ℤ) - qexpN a1 b1)) : ℤ) : ℚ)
        ≤ ((rne ((a2 : ℚ) / b2 * (2 : ℚ) ^ ((52 : ℤ) - qexpN a1 b1)) : ℤ) : ℚ) := by
      exact_mod_cast hr
    exact mul_le_mul_of_nonneg_right hrQ (zpow_pos (by norm_num) _).le
  · calc valFrac (flFrac a1 b1)
        ≤ (2 : ℚ) ^ (qexpN a1 b1 + 1) := flFrac_val_ub a1 b1 ha1 hb1
      _ ≤ (2 : ℚ) ^ qexpN a2 b2 :=
          zpow_le_zpow_right₀ (by norm_num) (by omega)
      _ ≤ valFrac (flFrac a2 b2) := flFrac_val_lb a2 b2 ha2 hb2

theorem flFrac_one : valFrac (flFrac 1 1) = 1 := by
  have h : flFrac 1 1 = (2 ^ 52, 2 ^ 52) := by decide
  rw [h]
  unfold valFrac
  norm_num

theorem flFrac_hundred : valFrac (flFrac 100 1) = 100 := by
  have h : flFrac 100 1 = (100 * 2 ^ 46, 2 ^ 46) := by decide
  rw [h]
  unfold valFrac
  push_cast
  norm_num

/-- The second rounding's input has 100 times the value of the first
rounding's output. -/
theorem valFrac_scale (p : ℕ × ℕ) :
    ((p.1 * 100 : ℕ) : ℚ) / ((p.2 : ℕ) : ℚ) = valFrac p * 100 := by
  unfold valFrac
  push_cast
  ring

theorem progressOfN_eq_floor (s T : ℕ) :
    (progressOfN s T : ℤ)
      = ⌊valFrac (flFrac ((flFrac s T).1 * 100) (flFrac s T).2)⌋ := by
  unfold progressOfN valFrac
  rw [show ((((flFrac ((flFrac s T).1 * 100) (flFrac s T).2).1 : ℕ)) : ℚ)
      = ((((flFrac ((flFrac s T).1 * 100) (flFrac s T).2).1 : ℕ) : ℤ) : ℚ)
    by push_cast; ring, Rat.floor_intCast_div_natCast, Int.natCast_div]

theorem progressOfN_mono (s1 s2 T : ℕ) (hs1 : 1 ≤ s1) (hT : 1 ≤ T)
    (h : s1 ≤ s2) : progressOfN s1 T ≤ progressOfN s2 T := by
  have hs2 : 1 ≤ s2 := le_trans hs1 h
  have hv1 : valFrac (flFrac s1 T) ≤ valFrac (flFrac s2 T) := by
    apply flFrac_mono s1 T s2 T hs1 hT hs2 hT
    have hTQ : (0 : ℚ) < (T : ℚ) := by exact_mod_cast hT
    have hQ : (s1 : ℚ) ≤ (s2 : ℚ) := by exact_mod_cast h
    gcongr
  have hv2 : valFrac (flFrac ((flFrac s1 T).1 * 100) (flFrac s1 T).2)
      ≤ valFrac (flFrac ((flFrac s2 T).1 * 100) (flFrac s2 T).2) := by
    apply flFrac_mono
    · exact Nat.one_le_iff_ne_zero.mpr
        (Nat.mul_ne_zero (by have := flFrac_fst_pos s1 T hs1 hT; omega) (by omega))
    · exact flFrac_snd_pos s1 T
    · exact Nat.one_le_iff_ne_zero.mpr
        (Nat.mul_ne_zero (by have := flFrac_fst_pos s2 T hs2 hT; omega) (by omega))
    · exact flFrac_snd_pos s2 T
    · rw [valFrac_scale, valFrac_scale]
      linarith
  have hfl := Int.floor_le_floor hv2
  rw [← progressOfN_eq_floor, ← progressOfN_eq_floor] at hfl
  exact_mod_cast hfl

theorem progressOfN_le_100 (s T : ℕ) (hs : 1 ≤ s) (hsT : s ≤ T) :
    progressOfN s T ≤ 100 := by
  have hT : 1 ≤ T := le_trans hs hsT
  have hv1 : valFrac (flFrac s T) ≤ 1 := by
    rw [← flFrac_one]
    apply flFrac_mono s T 1 1 hs hT le_rfl le_rfl
    have hTQ : (0 : ℚ) < (T : ℚ) := by exact_mod_cast hT
    have hQ : (s : ℚ) ≤ (T : ℚ) := by exact_mod_cast hsT
    rw [div_le_div_iff₀ hTQ (by norm_num : (0 : ℚ) < (1 : ℕ))]
    push_cast
    linarith
  have hv2 : valFrac (flFrac ((flFrac s T).1 * 100) (flFrac s T).2)
      ≤ valFrac (flFrac 100 1) := by
    apply flFrac_mono
    · exact Nat.one_le_iff_ne_zero.mpr
        (Nat.mul_ne_zero (by have := flFrac_fst_pos s T hs hT; omega) (by omega))
    · exact flFrac_snd_pos s T
    · norm_num
    · norm_num
    · rw [valFrac_scale]
      have h100 : ((100 : ℕ) : ℚ) / ((1 : ℕ) : ℚ) = 100 := by norm_num
      rw [h100]
      linarith
  rw [flFrac_hundred] at hv2
  have hZ : (progressOfN s T : ℤ) ≤ 100 := by
    rw [progressOfN_eq_floor]
    calc ⌊valFrac (flFrac ((flFrac s T).1 * 100) (flFrac s T).2)⌋
        ≤ ⌊(100 : ℚ)⌋ := Int.floor_le_floor hv2
      _ = 100 := by norm_num
  exact_mod_cast hZ

/-- Round-to-nearest never errs by more than half. -/
theorem rne_err (r : ℚ) : |((rne r : ℤ) : ℚ) - r| ≤ 1 / 2 := by
  have h0 : ((⌊r⌋ : ℤ) : ℚ) ≤ r := Int.floor_le r
  have h1 : r < ((⌊r⌋ : ℤ) : ℚ) + 1 := Int.lt_floor_add_one r
  unfold rne
  split_ifs with hc1 hc2 hc3 <;> rw [abs_le] <;> push_cast <;>
    constructor <;> linarith

/-- The relative error of one double rounding: the nearest double of `a / b`
is within `(a/b) / 2^53` of `a / b`. -/
theorem flFrac_err (a b : ℕ) (ha : 1 ≤ a) (hb : 1 ≤ b) :
    |valFrac (flFrac a b) - (a : ℚ) / b| ≤ ((a : ℚ) / b) / 2 ^ 53 := by
  have hbr := (qexpN_bracket a b ha hb).1
  have hm : ((mantissaN a b : ℕ) : ℚ)
      = ((rne ((a : ℚ) / b * (2 : ℚ) ^ ((52 : ℤ) - qexpN a b)) : ℤ) : ℚ) := by
    exact_mod_cast mantissaN_eq_rne a b hb
  have h2n : (2 : ℚ) ≠ 0 := by norm_num
  have hval : valFrac (flFrac a b)
      = ((rne ((a : ℚ) / b * (2 : ℚ) ^ ((52 : ℤ) - qexpN a b)) : ℤ) : ℚ)
        * (2 : ℚ) ^ (qexpN a b - (52 : ℤ)) := by
    rw [flFrac_val, hm]
  have hsx : (a : ℚ) / b * (2 : ℚ) ^ ((52 : ℤ) - qexpN a b)
      * (2 : ℚ) ^ (qexpN a b - (52 : ℤ)) = (a : ℚ) / b := by
    rw [mul_assoc, ← zpow_add₀ h2n,
      show (52 : ℤ) - qexpN a b + (qexpN a b - 52) = 0 by ring,
      zpow_zero, mul_one]
  have hdiff : valFrac (flFrac a b) - (a : ℚ) / b
      = (((rne ((a : ℚ) / b * (2 : ℚ) ^ ((52 : ℤ) - qexpN a b)) : ℤ) : ℚ)
          - (a : ℚ) / b * (2 : ℚ) ^ ((52 : ℤ) - qexpN a b))
        * (2 : ℚ) ^ (qexpN a b - (52 : ℤ)) := by
    rw [hval]
    nth_rewrite 2 [show (a : ℚ) / b
      = (a : ℚ) / b * (2 : ℚ) ^ ((52 : ℤ) - qexpN a b)
        * (2 : ℚ) ^ (qexpN a b - (52 : ℤ)) from hsx.symm]
    ring
  have hppos : (0 : ℚ) < (2 : ℚ) ^ (qexpN a b - (52 : ℤ)) :=
    zpow_pos (by norm_num) _
  rw [hdiff, abs_mul, abs_of_pos hppos]
  calc |((rne ((a : ℚ) / b * (2 : ℚ) ^ ((52 : ℤ) - qexpN a b)) : ℤ) : ℚ)
        - (a : ℚ) / b * (2 : ℚ) ^ ((52 : ℤ) - qexpN a b)|
        * (2 : ℚ) ^ (qexpN a b - (52 : ℤ))
      ≤ 1 / 2 * (2 : ℚ) ^ (qexpN a b - (52 : ℤ)) :=
        mul_le_mul_of_nonneg_right (rne_err _) hppos.le
    _ = (2 : ℚ) ^ (qexpN a b - (53 : ℤ)) := by
        rw [show (1 : ℚ) / 2 = (2 : ℚ) ^ (-1 : ℤ) by norm_num,
          ← zpow_add₀ h2n,
          show (-1 : ℤ) + (qexpN a b - 52) = qexpN a b - 53 by ring]
    _ = (2 : ℚ) ^ qexpN a b * (2 : ℚ) ^ (-(53) : ℤ) := by
        rw [← zpow_add₀ h2n,
          show qexpN a b + (-(53) : ℤ) = qexpN a b - 53 by ring]
    _ ≤ (a : ℚ) / b * (2 : ℚ) ^ (-(53) : ℤ) :=
        mul_le_mul_of_nonneg_right hbr (zpow_pos (by norm_num) _).le
    _ = (a : ℚ) / b / 2 ^ 53 := by
        have hpow : (2 : ℚ) ^ (-(53) : ℤ) = ((2 : ℚ) ^ (53 : ℕ))⁻¹ := by
          rw [← zpow_natCast (2 : ℚ) 53, ← zpow_neg]
          norm_num
        rw [hpow]
        ring

/-- The double-precision progress value brackets the ideal percentage: it is
never below `floor((s/T)*100) - 1`, and for any total-steps value up to
`2^40` it never exceeds `floor((s/T)*100)`. -/
theorem progressOfN_bracket (s T : ℕ) (hs : 1 ≤ s) (hsT : s ≤ T) :
    ⌊(s : ℚ) / T * 100⌋ - 1 ≤ (progressOfN s T : ℤ) ∧
    (T ≤ 2 ^ 40 → (progressOfN s T : ℤ) ≤ ⌊(s : ℚ) / T * 100⌋) := by
  have hT : 1 ≤ T := le_trans hs hsT
  have hTQ : (0 : ℚ) < (T : ℚ) := by exact_mod_cast hT
  have hsQ : (0 : ℚ) < (s : ℚ) := by exact_mod_cast hs
  have hx0 : 0 < (s : ℚ) / T := div_pos hsQ hTQ
  have hx1 : (s : ℚ) / T ≤ 1 := by
    rw [div_le_one hTQ]
    exact_mod_cast hsT
  have herr1 := flFrac_err s T hs hT
  have ha2 : 1 ≤ (flFrac s T).1 * 100 :=
    Nat.one_le_iff_ne_zero.mpr (Nat.mul_ne_zero
      (by have := flFrac_fst_pos s T hs hT; omega) (by omega))
  have hb2 : 1 ≤ (flFrac s T).2 := flFrac_snd_pos s T
  have herr2 := flFrac_err ((flFrac s T).1 * 100) (flFrac s T).2 ha2 hb2
  rw [valFrac_scale (flFrac s T)] at herr2
  have hv1pos : 0 < valFrac (flFrac s T) := flFrac_val_pos s T hs hT
  have hprog : (progressOfN s T : ℤ)
      = ⌊valFrac (flFrac ((flFrac s T).1 * 100) (flFrac s T).2)⌋ :=
    progressOfN_eq_floor s T
  obtain ⟨h1l, h1u⟩ := abs_le.mp herr1
  obtain ⟨h2l, h2u⟩ := abs_le.mp herr2
  set F := ⌊(s : ℚ) / T * 100⌋ with hFdef
  have hFle : ((F : ℤ) : ℚ) ≤ (s : ℚ) / T * 100 := Int.floor_le _
  have hFgt : (s : ℚ) / T * 100 < ((F : ℤ) : ℚ) + 1 := Int.lt_floor_add_one _
  constructor
  · rw [hprog, Int.le_floor]
    push_cast
    linarith
  · intro hT40
    have hT40Q : (T : ℚ) ≤ 2 ^ 40 := by exact_mod_cast hT40
    have hTinv : (1 : ℚ) / 2 ^ 40 ≤ 1 / T :=
      one_div_le_one_div_of_le hTQ hT40Q
    have hint : (100 * s : ℤ) + 1 ≤ T * (F + 1) := by
      have h' : (100 * s : ℚ) < (T : ℚ) * (((F : ℤ) : ℚ) + 1) := by
        have hm : (s : ℚ) / T * 100 * T = 100 * s := by
          field_simp
          ring
        nlinarith [hFgt, hTQ]
      have h'' : (100 * s : ℤ) < T * (F + 1) := by exact_mod_cast h'
      omega
    have hintQ : (100 * s : ℚ) + 1 ≤ (T : ℚ) * (((F : ℤ) : ℚ) + 1) := by
      exact_mod_cast hint
    have hslack : (s : ℚ) / T * 100 ≤ ((F : ℤ) : ℚ) + 1 - 1 / T := by
      have heq1 : (s : ℚ) / T * 100 = (100 * (s : ℚ)) / T := by ring
      have heq2 : ((F : ℤ) : ℚ) + 1 - 1 / T
          = ((T : ℚ) * (((F : ℤ) : ℚ) + 1) - 1) / T := by
        field_simp
        ring
      rw [heq1, heq2, div_le_div_iff₀ hTQ hTQ]
      nlinarith [hintQ, hTQ]
    have hlt : valFrac (flFrac ((flFrac s T).1 * 100) (flFrac s T).2)
        < ((F : ℤ) : ℚ) + 1 := by
      linarith
    have hfl : ⌊valFrac (flFrac ((flFrac s T).1 * 100) (flFrac s T).2)⌋
        < F + 1 := by
      rw [Int.floor_lt]
      push_cast
      exact_mod_cast hlt
    rw [hprog]
    omega

/-! ## Lemmas about the base64 encoder -/

theorem base64Chars_ne_nil (l : List ℕ) (h : l ≠ []) : base64Chars l ≠ [] := by
  match l with
  | [] => exact absurd rfl h
  | [a] => simp [base64Chars]
  | [a, b] => simp [base64Chars]
  | a :: b :: c :: rest => simp [base64Chars]

theorem convert_image_to_base64_ne_empty (bytes : List ℕ) :
    convert_image_to_base64 bytes ≠ "" := by
  unfold convert_image_to_base64 base64Encode
  intro hcontra
  have hdata : base64Chars (pngSignature ++ bytes) = [] := by
    have := congrArg String.data hcontra
    simpa using this
  exact base64Chars_ne_nil _ (by simp [pngSignature]) hdata

/-! ## Lemmas about the metadata parsers -/

theorem pyInt_error_eq (s : String) (e : PyError) (h : pyInt s = .error e) :
    e = .valueError := by
  unfold pyInt at h
  cases hc : pyIntCore s.data <;> rw [hc] at h <;> simp_all

theorem pyFloat_error_eq (s : String) (e : PyError) (h : pyFloat s = .error e) :
    e = .valueError := by
  unfold pyFloat at h
  cases hc : pyFloatCore s.data <;> rw [hc] at h <;> simp_all

theorem resizeConst_spec : ResizeSpec resizeConst :=
  fun _ _ _ => ⟨rfl, rfl, fun _ _ _ => by norm_num [resizeConst]⟩

theorem mkRat_fifteen_two : mkRat 15 2 = (7.5 : ℚ) := by
  norm_num [Rat.mkRat_eq_div]

/-! ## Claim theorems -/

/-- C1: an invocation of `pytorch_callback` made while the interruption flag
is set returns with only the flag cleared (the flag reads false immediately
after; cadence and total-steps are untouched), raises the cancellation
condition exactly once (the result is `.interrupted`), and publishes no
progress message. -/
theorem C1_interrupt_clears_flag_and_halts {H W : ℕ} (s : Shared)
    (data : CallbackData H W) (hI : s.interrupt = true) :
    pytorch_callback s data = ({ s with interrupt := false }, .interrupted) ∧
    (pytorch_callback s data).1.interrupt = false ∧
    messagesOf (pytorch_callback s data).2 = [] ∧
    (pytorch_callback s data).1.image_decode_steps = s.image_decode_steps ∧
    (pytorch_callback s data).1.current_steps = s.current_steps := by
  unfold pytorch_callback
  rw [hI]
  simp [messagesOf]

/-- C1 witness: the theorem applied at a concrete interrupted state. -/
theorem C1_witness :
    (⟨true, 5, 10⟩ : Shared).interrupt = true ∧
    pytorch_callback (⟨true, 5, 10⟩ : Shared)
        (⟨[fun _ _ _ => 0], 0⟩ : CallbackData 1 1)
      = ((⟨false, 5, 10⟩ : Shared), .interrupted) :=
  ⟨rfl, (C1_interrupt_clears_flag_and_halts (⟨true, 5, 10⟩ : Shared)
    (⟨[fun _ _ _ => 0], 0⟩ : CallbackData 1 1) rfl).1⟩

/-- C2: for a non-interrupted invocation with positive preview cadence N,
the published message's image field is a non-empty string exactly when the
1-based step number `i + 1` is a multiple of N — in which case it is the
base64 encoding of the serialized preview — and the empty string
otherwise. -/
theorem C2_cadence_gating {H W : ℕ} (s : Shared) (data : CallbackData H W)
    (hI : s.interrupt = false) (_hN : 0 < s.image_decode_steps) :
    (imageOf (pytorch_callback s data).2 ≠ ""
      ↔ s.image_decode_steps ∣ (data.i + 1)) ∧
    (s.image_decode_steps ∣ (data.i + 1) →
      imageOf (pytorch_callback s data).2
        = convert_image_to_base64 (previewBytes data.x.headI)) ∧
    (¬ s.image_decode_steps ∣ (data.i + 1) →
      imageOf (pytorch_callback s data).2 = "") := by
  unfold pytorch_callback
  rw [hI]
  by_cases hc : (data.i + 1) % s.image_decode_steps = 0
  · have hdvd : s.image_decode_steps ∣ (data.i + 1) :=
      Nat.dvd_iff_mod_eq_zero.mpr hc
    simp [imageOf, hc, hdvd, convert_image_to_base64_ne_empty]
  · have hdvd : ¬ s.image_decode_steps ∣ (data.i + 1) := by
      rw [Nat.dvd_iff_mod_eq_zero]; exact hc
    simp [imageOf, hc, hdvd]

/-- C2 witness: cadence 1, step index 0 (1-based step 1, a multiple of 1):
the published image is non-empty. -/
theorem C2_witness :
    (⟨false, 1, 10⟩ : Shared).interrupt = false ∧ (0 : ℕ) < 1 ∧
    (imageOf (pytorch_callback (⟨false, 1, 10⟩ : Shared)
        (⟨[fun _ _ _ => 0], 0⟩ : CallbackData 1 1)).2 ≠ ""
      ↔ (1 : ℕ) ∣ (0 + 1)) :=
  ⟨rfl, Nat.one_pos,
    (C2_cadence_gating (⟨false, 1, 10⟩ : Shared)
      (⟨[fun _ _ _ => 0], 0⟩ : CallbackData 1 1) rfl Nat.one_pos).1⟩

/-- C8 counterexample: an invocation made with the interruption flag set
publishes zero messages, not exactly one. -/
theorem C8_counterexample :
    (⟨true, 5, 10⟩ : Shared).interrupt = true ∧
    messagesOf (pytorch_callback (⟨true, 5, 10⟩ : Shared)
      (⟨[fun _ _ _ => 0], 0⟩ : CallbackData 1 1)).2 = [] := by
  constructor
  · rfl
  · rfl

/-- C8 amended: a non-interrupted invocation publishes exactly one message
and mutates no shared state; an interrupted invocation publishes none and
mutates only the interruption flag. -/
theorem C8_publish_discipline {H W : ℕ} (s : Shared) (data : CallbackData H W)
    (_hN : 0 < s.image_decode_steps) (_hT : 0 < s.current_steps) :
    (s.interrupt = true →
      pytorch_callback s data = ({ s with interrupt := false }, .interrupted) ∧
      (messagesOf (pytorch_callback s data).2).length = 0) ∧
    (s.interrupt = false →
      (pytorch_callback s data).1 = s ∧
      (messagesOf (pytorch_callback s data).2).length = 1) := by
  constructor
  · intro hI
    unfold pytorch_callback
    rw [hI]
    simp [messagesOf]
  · intro hI
    unfold pytorch_callback
    rw [hI]
    simp [messagesOf]

/-- C8 witness: a concrete non-interrupted invocation publishes exactly one
message and leaves the state unchanged. -/
theorem C8_witness :
    (0 : ℕ) < 5 ∧ (0 : ℕ) < 10 ∧
    ((pytorch_callback (⟨false, 5, 10⟩ : Shared)
        (⟨[fun _ _ _ => 0], 0⟩ : CallbackData 1 1)).1 = (⟨false, 5, 10⟩ : Shared) ∧
      (messagesOf (pytorch_callback (⟨false, 5, 10⟩ : Shared)
        (⟨[fun _ _ _ => 0], 0⟩ : CallbackData 1 1)).2).length = 1) :=
  ⟨by decide, by decide,
    (C8_publish_discipline (⟨false, 5, 10⟩ : Shared)
      (⟨[fun _ _ _ => 0], 0⟩ : CallbackData 1 1)
      (by decide) (by decide)).2 rfl⟩

/-- C3 counterexample: at 1-based step 29 with total-steps 100 the callback
publishes progress 28 — the double-precision evaluation of
`int((29/100)*100)` — while `floor((29/100)*100) = 29`.  The claimed exact
equality with the rational floor fails. -/
theorem C3_counterexample :
    (messagesOf (pytorch_callback (⟨false, 100, 100⟩ : Shared)
        (⟨[fun _ _ _ => 0], 28⟩ : CallbackData 1 1)).2).map Data.progress
      = [28] ∧
    ⌊((28 + 1 : ℚ) / 100) * 100⌋ = (29 : ℤ) := by
  constructor
  · decide
  · have hval : ((28 + 1 : ℚ) / 100) * 100 = ((29 : ℤ) : ℚ) := by norm_num
    rw [hval, Int.floor_intCast]

/-- C3 amended: the published progress equals `int((step/total)*100)`
evaluated in IEEE double precision (`progressOfN`), which can be one less
than `floor(step/total*100)`; across non-interrupted invocations of
`pytorch_callback` with nondecreasing step index under the same shared
state, the published progress values are nondecreasing; moreover, within a
run (step ≤ total) the published value never falls below
`floor(step/total*100) - 1`, and for any total-steps value up to `2^40` it
never exceeds `floor(step/total*100)`. -/
theorem C3_progress_monotone {H W : ℕ} (s : Shared)
    (d1 d2 : CallbackData H W) (hI : s.interrupt = false)
    (hT : 0 < s.current_steps) (hle : d1.i ≤ d2.i) :
    msgProgress (pytorch_callback s d1).2
      = (progressOfN (d1.i + 1) s.current_steps : ℤ) ∧
    msgProgress (pytorch_callback s d1).2
      ≤ msgProgress (pytorch_callback s d2).2 ∧
    (d1.i + 1 ≤ s.current_steps →
      ⌊((d1.i + 1 : ℕ) : ℚ) / (s.current_steps : ℚ) * 100⌋ - 1
        ≤ msgProgress (pytorch_callback s d1).2 ∧
      (s.current_steps ≤ 2 ^ 40 →
        msgProgress (pytorch_callback s d1).2
          ≤ ⌊((d1.i + 1 : ℕ) : ℚ) / (s.current_steps : ℚ) * 100⌋)) := by
  unfold pytorch_callback
  rw [hI]
  simp only [Bool.false_eq_true, if_false, msgProgress]
  refine ⟨trivial, ?_, ?_⟩
  · exact_mod_cast progressOfN_mono (d1.i + 1) (d2.i + 1) s.current_steps
      (by omega) hT (by omega)
  · intro hstep
    obtain ⟨hlow, hup⟩ :=
      progressOfN_bracket (d1.i + 1) s.current_steps (by omega) hstep
    exact ⟨hlow, fun h40 => hup h40⟩

/-- C3 witness: concrete successive steps 1 and 2 of a 10-step run give
nondecreasing published progress. -/
theorem C3_witness :
    (⟨false, 5, 10⟩ : Shared).interrupt = false ∧ (0 : ℕ) < 10 ∧ (0 : ℕ) ≤ 1 ∧
    msgProgress (pytorch_callback (⟨false, 5, 10⟩ : Shared)
        (⟨[fun _ _ _ => 0], 0⟩ : CallbackData 1 1)).2
      ≤ msgProgress (pytorch_callback (⟨false, 5, 10⟩ : Shared)
        (⟨[fun _ _ _ => 0], 1⟩ : CallbackData 1 1)).2 :=
  ⟨rfl, by decide, by decide,
    (C3_progress_monotone (⟨false, 5, 10⟩ : Shared)
      (⟨[fun _ _ _ => 0], 0⟩ : CallbackData 1 1)
      (⟨[fun _ _ _ => 0], 1⟩ : CallbackData 1 1)
      rfl (by decide) (by decide)).2.1⟩

/-- C9: for a non-interrupted invocation whose 1-based step number does not
exceed the (positive) total-steps value — the invariant the sampling loop
maintains — the published progress is an integer between 0 and 100. -/
theorem C9_progress_range {H W : ℕ} (s : Shared) (data : CallbackData H W)
    (hI : s.interrupt = false) (_hT : 0 < s.current_steps)
    (hs : data.i + 1 ≤ s.current_steps) :
    0 ≤ msgProgress (pytorch_callback s data).2 ∧
    msgProgress (pytorch_callback s data).2 ≤ 100 := by
  unfold pytorch_callback
  rw [hI]
  simp only [Bool.false_eq_true, if_false, msgProgress]
  constructor
  · exact Int.natCast_nonneg _
  · exact_mod_cast progressOfN_le_100 (data.i + 1) s.current_steps
      (by omega) hs

/-- C9 witness: step 3 of 10 publishes a progress value within 0..100. -/
theorem C9_witness :
    (⟨false, 5, 10⟩ : Shared).interrupt = false ∧ (0 : ℕ) < 10 ∧
    (2 : ℕ) + 1 ≤ 10 ∧
    (0 ≤ msgProgress (pytorch_callback (⟨false, 5, 10⟩ : Shared)
        (⟨[fun _ _ _ => 0], 2⟩ : CallbackData 1 1)).2 ∧
      msgProgress (pytorch_callback (⟨false, 5, 10⟩ : Shared)
        (⟨[fun _ _ _ => 0], 2⟩ : CallbackData 1 1)).2 ≤ 100) :=
  ⟨rfl, by decide, by decide,
    C9_progress_range (⟨false, 5, 10⟩ : Shared)
      (⟨[fun _ _ _ => 0], 2⟩ : CallbackData 1 1) rfl (by decide) (by decide)⟩

/-- C5: `cheap_approximation` on a (4, H, W) latent yields the (3, H, W)
contraction over the channel axis with the fixed coefficient matrix, and on
a constant latent with all four channels equal to `k` every output pixel's
RGB channels equal `k` times the column sums of that matrix
(R = 0.143·k, G = 0.411·k, B = 0.172·k exactly, in the rational model). -/
theorem C5_decoder_transform {H W : ℕ} (sample : Fin 4 → Fin H → Fin W → ℚ)
    (k : ℚ) (r : Fin 3) (x : Fin H) (y : Fin W) :
    cheap_approximation sample r x y
      = sample 0 x y * coefs 0 r + sample 1 x y * coefs 1 r
        + sample 2 x y * coefs 2 r + sample 3 x y * coefs 3 r ∧
    cheap_approximation (fun _ _ _ => k) r x y
      = k * ![(0.143 : ℚ), 0.411, 0.172] r := by
  constructor
  · unfold cheap_approximation
    rw [Fin.sum_univ_four]
  · unfold cheap_approximation
    rw [Fin.sum_univ_four]
    fin_cases r <;> norm_num [coefs] <;> ring_nf

/-- C7: an input that is already the canonical tensor type passes through
`preprocess_image` unchanged — the identical tensor, no transformation, no
validation. -/
theorem C7_tensor_passthrough (resize : PImage → ℕ → ℕ → PImage)
    (t : Tensor4) : preprocess_image resize (.tensor t) = t := rfl

/-- C6: on a list of decoded images (with a resize primitive meeting the
external contract), the target dimensions are the first image's width and
height each rounded down to the nearest multiple of 32, every image is
resized to exactly those dimensions, and every output sample equals
`2·(v/255) − 1` for the resized image's 8-bit sample `v`, hence lies in
`[-1, 1]`. -/
theorem C6_image_list_preprocess (resize : PImage → ℕ → ℕ → PImage)
    (hres : ResizeSpec resize) (imgs : List PImage) (_hne : imgs ≠ []) :
    (preprocess_image resize (.imageList imgs)).width
      = imgs.headI.width - imgs.headI.width % 32 ∧
    (preprocess_image resize (.imageList imgs)).height
      = imgs.headI.height - imgs.headI.height % 32 ∧
    (preprocess_image resize (.imageList imgs)).batch = imgs.length ∧
    (preprocess_image resize (.imageList imgs)).channels = 3 ∧
    ∀ b c y x,
      (resize (imgs.getD b default)
          (imgs.headI.width - imgs.headI.width % 32)
          (imgs.headI.height - imgs.headI.height % 32)).width
        = imgs.headI.width - imgs.headI.width % 32 ∧
      (resize (imgs.getD b default)
          (imgs.headI.width - imgs.headI.width % 32)
          (imgs.headI.height - imgs.headI.height % 32)).height
        = imgs.headI.height - imgs.headI.height % 32 ∧
      (preprocess_image resize (.imageList imgs)).val b c y x
        = 2 * ((resize (imgs.getD b default)
            (imgs.headI.width - imgs.headI.width % 32)
            (imgs.headI.height - imgs.headI.height % 32)).pixel y x c : ℚ)
            / 255 - 1 ∧
      -1 ≤ (preprocess_image resize (.imageList imgs)).val b c y x ∧
      (preprocess_image resize (.imageList imgs)).val b c y x ≤ 1 := by
  refine ⟨rfl, rfl, rfl, rfl, ?_⟩
  intro b c y x
  obtain ⟨hw, hh, hpix⟩ := hres (imgs.getD b default)
    (imgs.headI.width - imgs.headI.width % 32)
    (imgs.headI.height - imgs.headI.height % 32)
  refine ⟨hw, hh, rfl, ?_, ?_⟩
  · have h0 : (0 : ℚ) ≤ ((resize (imgs.getD b default)
        (imgs.headI.width - imgs.headI.width % 32)
        (imgs.headI.height - imgs.headI.height % 32)).pixel y x c : ℚ) :=
      Nat.cast_nonneg _
    show (-1 : ℚ) ≤ 2 * _ / 255 - 1
    linarith
  · have h255 : ((resize (imgs.getD b default)
        (imgs.headI.width - imgs.headI.width % 32)
        (imgs.headI.height - imgs.headI.height % 32)).pixel y x c : ℚ) ≤ 255 := by
      exact_mod_cast hpix y x c
    show 2 * _ / 255 - 1 ≤ (1 : ℚ)
    linarith

/-- C6 witness: a single 500×700 image is resized to 480×672 and the output
samples lie in `[-1, 1]`. -/
theorem C6_witness :
    ResizeSpec resizeConst ∧
    (preprocess_image resizeConst
      (.imageList [⟨500, 700, fun _ _ _ => 7⟩])).width = 480 ∧
    (preprocess_image resizeConst
      (.imageList [⟨500, 700, fun _ _ _ => 7⟩])).height = 672 :=
  ⟨resizeConst_spec,
    (C6_image_list_preprocess resizeConst resizeConst_spec
      [⟨500, 700, fun _ _ _ => 7⟩] (by simp)).1,
    (C6_image_list_preprocess resizeConst resizeConst_spec
      [⟨500, 700, fun _ _ _ => 7⟩] (by simp)).2.1⟩

/-- C4 counterexample: with all eight keys present but `height = "abc"`,
`image_meta_from_file` raises `ValueError` instead of returning any record
(neither exact values nor the fallback), refuting "for every file path a
fully populated record is returned". -/
theorem C4_counterexample :
    (metaKeys.all fun k => (badHeightText.lookup k).isSome) = true ∧
    image_meta_from_file badHeightText = .error .valueError := by
  constructor
  · decide
  · rfl

/-- C4 amended: the reader evaluates the eight fields in the source's
order; (1) when every lookup and numeric parse succeeds it returns exactly
the parsed values; (2) when the first failure in evaluation order is a
missing key it returns the all-empty/zero fallback; (3) it raises
`ValueError` exactly when the fields evaluated before some numeric field
all succeed and that field's text fails its numeric parse; (4) any record
it returns is either the fallback or carries exactly the parsed values of
all eight present keys — never a partially populated record. -/
theorem C4_metadata_reader (t : List (String × String)) :
    (∀ p np hs hv ws wv sd gs gv ss sv md,
      t.lookup "prompt" = some p →
      t.lookup "negative_prompt" = some np →
      t.lookup "height" = some hs → pyInt hs = .ok hv →
      t.lookup "width" = some ws → pyInt ws = .ok wv →
      t.lookup "seed" = some sd →
      t.lookup "guidance_scale" = some gs → pyFloat gs = .ok gv →
      t.lookup "steps" = some ss → pyInt ss = .ok sv →
      t.lookup "model" = some md →
      image_meta_from_file t = .ok ⟨p, np, hv, wv, sd, gv, sv, md⟩) ∧
    (fallbackCondition t →
      image_meta_from_file t = .ok fallbackMetadata) ∧
    (image_meta_from_file t = .error .valueError ↔ valueErrorCondition t) ∧
    (∀ m, image_meta_from_file t = .ok m →
      m = fallbackMetadata ∨
      (t.lookup "prompt" = some m.prompt ∧
       t.lookup "negative_prompt" = some m.negative_prompt ∧
       (∃ hs, t.lookup "height" = some hs ∧ pyInt hs = .ok m.height) ∧
       (∃ ws, t.lookup "width" = some ws ∧ pyInt ws = .ok m.width) ∧
       t.lookup "seed" = some m.seed ∧
       (∃ gs, t.lookup "guidance_scale" = some gs ∧
         pyFloat gs = .ok m.guidance_scale) ∧
       (∃ ss, t.lookup "steps" = some ss ∧ pyInt ss = .ok m.steps) ∧
       t.lookup "model" = some m.model)) := by
  refine ⟨?_, ?_, ?_, ?_⟩
  · intro p np hs hv ws wv sd gs gv ss sv md
    intro h1 h2 h3 h3p h4 h4p h5 h6 h6p h7 h7p h8
    have htry : tryMeta t
        = .ok ⟨p, np, hv, wv, sd, gv, sv, md⟩ := by
      unfold tryMeta dictGet
      rw [h1, h2, h3, h4, h5, h6, h7, h8]
      simp [Except.bind, h3p, h4p, h6p, h7p]
    unfold image_meta_from_file
    rw [htry]
  · intro hfb
    simp only [fallbackCondition, keyPresent, intFieldOk, floatFieldOk] at hfb
    unfold image_meta_from_file tryMeta dictGet
    rcases hfb with h | ⟨⟨p, hp⟩, h⟩ | ⟨⟨p, hp⟩, ⟨np, hnp⟩, h⟩
      | ⟨⟨p, hp⟩, ⟨np, hnp⟩, ⟨hs, hv, hh, hhp⟩, h⟩
      | ⟨⟨p, hp⟩, ⟨np, hnp⟩, ⟨hs, hv, hh, hhp⟩, ⟨ws, wv, hw, hwp⟩, h⟩
      | ⟨⟨p, hp⟩, ⟨np, hnp⟩, ⟨hs, hv, hh, hhp⟩, ⟨ws, wv, hw, hwp⟩,
          ⟨sd, hsd⟩, h⟩
      | ⟨⟨p, hp⟩, ⟨np, hnp⟩, ⟨hs, hv, hh, hhp⟩, ⟨ws, wv, hw, hwp⟩,
          ⟨sd, hsd⟩, ⟨gs, gv, hg, hgp⟩, h⟩
      | ⟨⟨p, hp⟩, ⟨np, hnp⟩, ⟨hs, hv, hh, hhp⟩, ⟨ws, wv, hw, hwp⟩,
          ⟨sd, hsd⟩, ⟨gs, gv, hg, hgp⟩, ⟨ss, sv, hst, hstp⟩, h⟩
    · simp [h, Except.bind]
    · simp [hp, h, Except.bind]
    · simp [hp, hnp, h, Except.bind]
    · simp [hp, hnp, hh, hhp, h, Except.bind]
    · simp [hp, hnp, hh, hhp, hw, hwp, h, Except.bind]
    · simp [hp, hnp, hh, hhp, hw, hwp, hsd, h, Except.bind]
    · simp [hp, hnp, hh, hhp, hw, hwp, hsd, hg, hgp, h, Except.bind]
    · simp [hp, hnp, hh, hhp, hw, hwp, hsd, hg, hgp, hst, hstp, h,
        Except.bind]
  · constructor
    · intro herr
      simp only [valueErrorCondition, keyPresent, intFieldOk, floatFieldOk,
        intFieldBad, floatFieldBad]
      unfold image_meta_from_file tryMeta dictGet at herr
      cases h1 : t.lookup "prompt" with
      | none => simp [h1, Except.bind] at herr
      | some p =>
      simp only [h1, Except.bind] at herr
      cases h2 : t.lookup "negative_prompt" with
      | none => simp [h2, Except.bind] at herr
      | some np =>
      simp only [h2, Except.bind] at herr
      cases h3 : t.lookup "height" with
      | none => simp [h3, Except.bind] at herr
      | some hs =>
      simp only [h3, Except.bind] at herr
      cases h3p : pyInt hs with
      | error e =>
        rw [pyInt_error_eq hs e h3p] at h3p
        exact Or.inl ⟨⟨p, rfl⟩, ⟨np, rfl⟩, hs, rfl, h3p⟩
      | ok hv =>
      simp only [h3p, Except.bind] at herr
      cases h4 : t.lookup "width" with
      | none => simp [h4, Except.bind] at herr
      | some ws =>
      simp only [h4, Except.bind] at herr
      cases h4p : pyInt ws with
      | error e =>
        rw [pyInt_error_eq ws e h4p] at h4p
        exact Or.inr (Or.inl ⟨⟨p, rfl⟩, ⟨np, rfl⟩, ⟨hs, hv, rfl, h3p⟩,
          ws, rfl, h4p⟩)
      | ok wv =>
      simp only [h4p, Except.bind] at herr
      cases h5 : t.lookup "seed" with
      | none => simp [h5, Except.bind] at herr
      | some sd =>
      simp only [h5, Except.bind] at herr
      cases h6 : t.lookup "guidance_scale" with
      | none => simp [h6, Except.bind] at herr
      | some gs =>
      simp only [h6, Except.bind] at herr
      cases h6p : pyFloat gs with
      | error e =>
        rw [pyFloat_error_eq gs e h6p] at h6p
        exact Or.inr (Or.inr (Or.inl ⟨⟨p, rfl⟩, ⟨np, rfl⟩, ⟨hs, hv, rfl, h3p⟩,
          ⟨ws, wv, rfl, h4p⟩, ⟨sd, rfl⟩, gs, rfl, h6p⟩))
      | ok gv =>
      simp only [h6p, Except.bind] at herr
      cases h7 : t.lookup "steps" with
      | none => simp [h7, Except.bind] at herr
      | some ss =>
      simp only [h7, Except.bind] at herr
      cases h7p : pyInt ss with
      | error e =>
        rw [pyInt_error_eq ss e h7p] at h7p
        exact Or.inr (Or.inr (Or.inr ⟨⟨p, rfl⟩, ⟨np, rfl⟩, ⟨hs, hv, rfl, h3p⟩,
          ⟨ws, wv, rfl, h4p⟩, ⟨sd, rfl⟩, ⟨gs, gv, rfl, h6p⟩, ss, rfl, h7p⟩))
      | ok sv =>
      simp only [h7p, Except.bind] at herr
      cases h8 : t.lookup "model" with
      | none => simp [h8, Except.bind] at herr
      | some md =>
      simp [h8, Except.bind] at herr
    · intro hve
      simp only [valueErrorCondition, keyPresent, intFieldOk, floatFieldOk,
        intFieldBad, floatFieldBad] at hve
      unfold image_meta_from_file tryMeta dictGet
      rcases hve with ⟨⟨p, hp⟩, ⟨np, hnp⟩, hs, hh, hhb⟩
        | ⟨⟨p, hp⟩, ⟨np, hnp⟩, ⟨hs, hv, hh, hhp⟩, ws, hw, hwb⟩
        | ⟨⟨p, hp⟩, ⟨np, hnp⟩, ⟨hs, hv, hh, hhp⟩, ⟨ws, wv, hw, hwp⟩,
            ⟨sd, hsd⟩, gs, hg, hgb⟩
        | ⟨⟨p, hp⟩, ⟨np, hnp⟩, ⟨hs, hv, hh, hhp⟩, ⟨ws, wv, hw, hwp⟩,
            ⟨sd, hsd⟩, ⟨gs, gv, hg, hgp⟩, ss, hst, hstb⟩
      · simp [hp, hnp, hh, hhb, Except.bind]
      · simp [hp, hnp, hh, hhp, hw, hwb, Except.bind]
      · simp [hp, hnp, hh, hhp, hw, hwp, hsd, hg, hgb, Except.bind]
      · simp [hp, hnp, hh, hhp, hw, hwp, hsd, hg, hgp, hst, hstb,
          Except.bind]
  · intro m hm
    unfold image_meta_from_file tryMeta dictGet at hm
    cases h1 : t.lookup "prompt" with
    | none => simp [h1, Except.bind] at hm; exact Or.inl hm.symm
    | some p =>
    simp only [h1, Except.bind] at hm
    cases h2 : t.lookup "negative_prompt" with
    | none => simp [h2, Except.bind] at hm; exact Or.inl hm.symm
    | some np =>
    simp only [h2, Except.bind] at hm
    cases h3 : t.lookup "height" with
    | none => simp [h3, Except.bind] at hm; exact Or.inl hm.symm
    | some hs =>
    simp only [h3, Except.bind] at hm
    cases h3p : pyInt hs with
    | error e =>
      rw [pyInt_error_eq hs e h3p] at h3p
      simp [h3p, Except.bind] at hm
    | ok hv =>
    simp only [h3p, Except.bind] at hm
    cases h4 : t.lookup "width" with
    | none => simp [h4, Except.bind] at hm; exact Or.inl hm.symm
    | some ws =>
    simp only [h4, Except.bind] at hm
    cases h4p : pyInt ws with
    | error e =>
      rw [pyInt_error_eq ws e h4p] at h4p
      simp [h4p, Except.bind] at hm
    | ok wv =>
    simp only [h4p, Except.bind] at hm
    cases h5 : t.lookup "seed" with
    | none => simp [h5, Except.bind] at hm; exact Or.inl hm.symm
    | some sd =>
    simp only [h5, Except.bind] at hm
    cases h6 : t.lookup "guidance_scale" with
    | none => simp [h6, Except.bind] at hm; exact Or.inl hm.symm
    | some gs =>
    simp only [h6, Except.bind] at hm
    cases h6p : pyFloat gs with
    | error e =>
      rw [pyFloat_error_eq gs e h6p] at h6p
      simp [h6p, Except.bind] at hm
    | ok gv =>
    simp only [h6p, Except.bind] at hm
    cases h7 : t.lookup "steps" with
    | none => simp [h7, Except.bind] at hm; exact Or.inl hm.symm
    | some ss =>
    simp only [h7, Except.bind] at hm
    cases h7p : pyInt ss with
    | error e =>
      rw [pyInt_error_eq ss e h7p] at h7p
      simp [h7p, Except.bind] at hm
    | ok sv =>
    simp only [h7p, Except.bind] at hm
    cases h8 : t.lookup "model" with
    | none => simp [h8, Except.bind] at hm; exact Or.inl hm.symm
    | some md =>
    simp only [h8, Except.bind, Except.ok.injEq] at hm
    subst hm
    exact Or.inr ⟨rfl, rfl, ⟨hs, rfl, h3p⟩, ⟨ws, rfl, h4p⟩, rfl,
      ⟨gs, rfl, h6p⟩, ⟨ss, rfl, h7p⟩, rfl⟩

/-- C4 witness: the amended theorem applied to a fully populated text
dictionary (yielding the exact parsed record, with `"7.5"` parsed to the
rational 15/2), to an empty dictionary (yielding the fallback), and to a
dictionary with the height key absent but an unparseable steps value
(the height `KeyError` fires first, so the fallback is still taken). -/
theorem C4_witness :
    image_meta_from_file goodMetaText
      = .ok ⟨"a cat", "blurry", 512, 512, "42", mkRat 15 2, 30, "sd-v1"⟩ ∧
    mkRat 15 2 = (7.5 : ℚ) ∧
    image_meta_from_file ([] : List (String × String))
      = .ok fallbackMetadata ∧
    image_meta_from_file missingHeightText = .ok fallbackMetadata :=
  ⟨(C4_metadata_reader goodMetaText).1 "a cat" "blurry" "512" 512 "512" 512
      "42" "7.5" (mkRat 15 2) "30" 30 "sd-v1"
      (by decide) (by decide) (by decide) (by decide) (by decide) (by decide)
      (by decide) (by decide) (by decide) (by decide) (by decide) (by decide),
    mkRat_fifteen_two,
    (C4_metadata_reader ([] : List (String × String))).2.1 (Or.inl rfl),
    (C4_metadata_reader missingHeightText).2.1
      (Or.inr (Or.inr (Or.inl
        ⟨⟨"a cat", by decide⟩, ⟨"blurry", by decide⟩, by decide⟩)))⟩

/-- C10: with all eight keys present but some numeric field (height, width,
guidance_scale or steps) failing its numeric parse, `image_meta_from_file`
raises the parse error (`ValueError`) to the caller rather than falling
back; the fallback is taken only on a missing key. -/
theorem C10_parse_error_propagates (t : List (String × String))
    (p np hs ws sd gs ss md : String)
    (h1 : t.lookup "prompt" = some p)
    (h2 : t.lookup "negative_prompt" = some np)
    (h3 : t.lookup "height" = some hs)
    (h4 : t.lookup "width" = some ws)
    (h5 : t.lookup "seed" = some sd)
    (h6 : t.lookup "guidance_scale" = some gs)
    (h7 : t.lookup "steps" = some ss)
    (h8 : t.lookup "model" = some md)
    (hbad : pyInt hs = .error .valueError ∨ pyInt ws = .error .valueError ∨
      pyFloat gs = .error .valueError ∨ pyInt ss = .error .valueError) :
    image_meta_from_file t = .error .valueError ∧
    image_meta_from_file t ≠ .ok fallbackMetadata := by
  have hmain : image_meta_from_file t = .error .valueError := by
    unfold image_meta_from_file tryMeta dictGet
    rw [h1, h2, h3, h4, h5, h6, h7, h8]
    cases h3p : pyInt hs with
    | error e =>
      rw [pyInt_error_eq hs e h3p] at h3p
      simp [h3p, Except.bind]
    | ok hv =>
    cases h4p : pyInt ws with
    | error e =>
      rw [pyInt_error_eq ws e h4p] at h4p
      simp [h3p, h4p, Except.bind]
    | ok wv =>
    cases h6p : pyFloat gs with
    | error e =>
      rw [pyFloat_error_eq gs e h6p] at h6p
      simp [h3p, h4p, h6p, Except.bind]
    | ok gv =>
    cases h7p : pyInt ss with
    | error e =>
      rw [pyInt_error_eq ss e h7p] at h7p
      simp [h3p, h4p, h6p, h7p, Except.bind]
    | ok sv =>
    exfalso
    rcases hbad with hb | hb | hb | hb <;> simp_all
  exact ⟨hmain, by rw [hmain]; simp⟩

/-- C10 witness: all eight keys present, `steps = "thirty"` fails the
integer parse, and the reader raises `ValueError` instead of falling
back. -/
theorem C10_witness :
    image_meta_from_file badStepsText = .error .valueError ∧
    image_meta_from_file badStepsText ≠ .ok fallbackMetadata :=
  C10_parse_error_propagates badStepsText "a cat" "blurry" "512" "512" "42"
    "7.5" "thirty" "sd-v1" (by decide) (by decide) (by decide) (by decide)
    (by decide) (by decide) (by decide) (by decide)
    (Or.inr (Or.inr (Or.inr (by decide))))

end VoltaML
